import Mathlib

/-!
Shallow embedding of the order/inventory/table consistency core of
`cafemanage/cafe.py` (a Streamlit cafe point-of-sale tool).  The persisted
JSON documents (menu, orders, tables, settings) are modelled as Lean data,
monetary values as exact rationals, integers as `Int`/`Nat`, and the
per-session shopping cart is carried alongside the persisted documents in
`Store`.  Each definition is translated from the source; line numbers refer
to `cafemanage/cafe.py`.
-/

namespace Cafe

/-- A menu item as stored in `menu_data.json` (cafe.py lines 21-45). -/
structure MenuItem where
  id : String
  name : String
  price : ℚ
  category : String
  available : Bool
  description : String
  inventory : Int
deriving DecidableEq

/-- The menu document: a JSON dict mapping category name to item list,
iterated in insertion order by `for cat in menu_data`. -/
abbrev Menu := List (String × List MenuItem)

/-- All items of the menu in iteration order (`for cat in menu_data: for it
in menu_data[cat]`). -/
def menuItems (m : Menu) : List MenuItem := (m.map Prod.snd).flatten

/-- One line of the session cart (cafe.py lines 206-210): a snapshot of the
item id, name and price at add-time, plus quantity and rounded subtotal. -/
structure CartLine where
  id : String
  name : String
  price : ℚ
  quantity : Nat
  subtotal : ℚ
deriving DecidableEq

/-- The settings document `settings.json` (cafe.py lines 53-58). -/
structure Settings where
  cafe_name : String
  barcode_url : String
  tax_rate : ℚ
  service_charge : ℚ
deriving DecidableEq

/-- An order record as appended to `orders_data.json` (cafe.py lines
244-259).  Status and payment status are the literal strings used by the
source; date/time/timestamp are opaque strings supplied by the clock. -/
structure Order where
  id : String
  customer_name : String
  table_number : String
  items : List CartLine
  subtotal : ℚ
  discount : ℚ
  tax : ℚ
  service_charge : ℚ
  total : ℚ
  date : String
  time : String
  timestamp : String
  status : String
  payment_status : String
deriving DecidableEq

/-- A table record of `tables_data.json` (cafe.py line 62). -/
structure Table where
  table_number : String
  status : String
deriving DecidableEq

/-- The full persisted state (the five JSON documents minus the static user
list) together with the per-session cart `st.session_state['cart']`.  The
cart is session state, not a disk document; it is carried here so that
placement can be described as one state transformer. -/
structure Store where
  menu : Menu
  orders : List Order
  settings : Settings
  tables : List Table
  cart : List CartLine
deriving DecidableEq

/-! ## Table Status Reconciler (cafe.py lines 147-156) -/

/-- `is_table_busy` (cafe.py lines 147-148): some order references the
table number with status among Pending/Preparing/Ready. -/
def is_table_busy (orders : List Order) (tn : String) : Bool :=
  orders.any fun o =>
    o.table_number == tn &&
      (o.status == "Pending" || o.status == "Preparing" || o.status == "Ready")

/-- The body of the reconcile loop (cafe.py lines 150-154): each table's
status is forced to `"Occupied"` when busy and to `"Available"` otherwise. -/
def reconcileTable (orders : List Order) (t : Table) : Table :=
  { t with status := if is_table_busy orders t.table_number then "Occupied" else "Available" }

/-- The reconcile pass over the whole table list (cafe.py lines 150-154). -/
def reconcileTables (orders : List Order) (tables : List Table) : List Table :=
  tables.map (reconcileTable orders)

/-- The `changed` flag (cafe.py lines 149-154): true when some table's
stored status differs from its recomputed status; the document is saved
(line 155-156) exactly when this is true. -/
def reconcileChanged (orders : List Order) (tables : List Table) : Bool :=
  tables.any fun t => t.status != (reconcileTable orders t).status

theorem reconcileTable_table_number (orders : List Order) (t : Table) :
    (reconcileTable orders t).table_number = t.table_number := rfl

theorem reconcileTable_idem (orders : List Order) (t : Table) :
    reconcileTable orders (reconcileTable orders t) = reconcileTable orders t := rfl

/-- Claim C4: immediately after the reconciler runs over the full order log
and table list, a table's stored status is `"Occupied"` if and only if some
order references its number with status in {Pending, Preparing, Ready}. -/
theorem claim_C4 (orders : List Order) (tables : List Table) (t : Table)
    (ht : t ∈ reconcileTables orders tables) :
    t.status = "Occupied" ↔
      ∃ o ∈ orders, o.table_number = t.table_number ∧
        (o.status = "Pending" ∨ o.status = "Preparing" ∨ o.status = "Ready") := by
  rcases List.mem_map.mp ht with ⟨t0, _, rfl⟩
  rw [reconcileTable_table_number]
  have hiff : is_table_busy orders t0.table_number = true ↔
      ∃ o ∈ orders, o.table_number = t0.table_number ∧
        (o.status = "Pending" ∨ o.status = "Preparing" ∨ o.status = "Ready") := by
    simp [is_table_busy, List.any_eq_true, or_assoc]
  unfold reconcileTable
  cases hb : is_table_busy orders t0.table_number with
  | true =>
    simp only [hb, if_true]
    simpa using hiff.mp hb
  | false =>
    simp only [hb, if_false]
    constructor
    · intro h; exact absurd h (by decide)
    · intro h
      rw [hiff.mpr h] at hb
      exact absurd hb (by decide)

/-- Witness for C4 at a concrete input. -/
theorem claim_C4_witness :
    ({ table_number := "3", status := "Occupied" } : Table).status = "Occupied" ↔
      ∃ o ∈ [({ id := "ORD00001", customer_name := "A", table_number := "3", items := [],
                subtotal := 0, discount := 0, tax := 0, service_charge := 0, total := 0,
                date := "d", time := "t", timestamp := "ts", status := "Pending",
                payment_status := "Unpaid" } : Order)],
          o.table_number = ({ table_number := "3", status := "Occupied" } : Table).table_number ∧
          (o.status = "Pending" ∨ o.status = "Preparing" ∨ o.status = "Ready") :=
  claim_C4
    [{ id := "ORD00001", customer_name := "A", table_number := "3", items := [],
       subtotal := 0, discount := 0, tax := 0, service_charge := 0, total := 0,
       date := "d", time := "t", timestamp := "ts", status := "Pending",
       payment_status := "Unpaid" }]
    [{ table_number := "3", status := "Available" }]
    { table_number := "3", status := "Occupied" }
    (by decide)

/-- Claim C6: the reconcile pass is idempotent — a second run over the same
order log returns the identical table document and reports no change, so no
further save of the table document happens. -/
theorem claim_C6 (orders : List Order) (tables : List Table) :
    reconcileTables orders (reconcileTables orders tables) = reconcileTables orders tables ∧
    reconcileChanged orders (reconcileTables orders tables) = false := by
  constructor
  · unfold reconcileTables
    rw [List.map_map]
    exact List.map_congr_left fun t _ => reconcileTable_idem orders t
  · unfold reconcileChanged reconcileTables
    rw [List.any_eq_false]
    intro t ht
    rcases List.mem_map.mp ht with ⟨t0, _, rfl⟩
    rw [reconcileTable_idem]
    simp

/-- The claim C2 asserts the reconciler leaves a non-busy table's status
as-is; on the code a non-busy table with status `"Reserved"` is overwritten
to `"Available"`: counterexample with an empty order log. -/
theorem claim_C2_counterexample :
    reconcileTables [] [{ table_number := "3", status := "Reserved" }] ≠
      [{ table_number := "3", status := "Reserved" }] := by decide

/-- Claim C2 (amended): for every table referenced by no order with status
in {Pending, Preparing, Ready}, the reconciler sets that table's stored
status to `"Available"`, overwriting any manually set `"Reserved"`; the
stored status survives the pass only when it is already `"Available"`. -/
theorem claim_C2_amended (orders : List Order) (t : Table)
    (h : is_table_busy orders t.table_number = false) :
    (reconcileTable orders t).status = "Available" := by
  unfold reconcileTable
  simp [h]

/-- Witness for the amended C2 at a concrete input. -/
theorem claim_C2_amended_witness :
    (reconcileTable [] { table_number := "3", status := "Reserved" }).status = "Available" :=
  claim_C2_amended [] { table_number := "3", status := "Reserved" } (by decide)

/-! ## Monetary rounding

Python's built-in `round(x, 2)` rounds half to even.  The source applies it
to each cart line's subtotal at add-to-cart time (line 209) and nowhere
else; in particular the stored order total (line 221) is not rounded. -/

/-- `round(q, 2)` on exact rationals: round half to even at two decimals. -/
def round2 (q : ℚ) : ℚ :=
  let fl : Int := Int.floor (q * 100)
  let frac : ℚ := q * 100 - fl
  let n : Int :=
    if 1 / 2 < frac then fl + 1
    else if frac < 1 / 2 then fl
    else if fl % 2 = 0 then fl else fl + 1
  (n : ℚ) / 100

/-! ## Add to cart (cafe.py lines 202-212) -/

/-- The add-to-cart handler body: reject when the requested quantity
exceeds the item's inventory (cart untouched, error message produced),
otherwise append a snapshot line to the cart.  Returns the resulting
session cart together with the error message, if any. -/
def add_to_cart (item : MenuItem) (qty : Nat) (cart : List CartLine) :
    List CartLine × Option String :=
  if (qty : Int) > item.inventory then
    (cart, some ("Only " ++ toString item.inventory ++ " left of " ++ item.name))
  else
    (cart ++ [{ id := item.id, name := item.name, price := item.price,
                quantity := qty, subtotal := round2 (item.price * (qty : ℚ)) }], none)

/-! ## Placement inventory pass (cafe.py lines 234-242)

The Python code loops over the cart; for each cart line it scans every
category and every item, and on an id match it returns from the whole
placement when the line's quantity exceeds that item's current (in-memory)
inventory, else decrements that item's in-memory inventory.  Because the
early return fires before `save_json(MENU_FILE, ...)` (line 242), a failed
pass leaves every persisted document untouched: `Option.none` below models
that early return. -/

/-- One cart line applied to the items of one category: on an id match,
fail if the quantity exceeds the item's inventory, else decrement it. -/
def applyLineItems (ci : CartLine) : List MenuItem → Option (List MenuItem)
  | [] => some []
  | it :: rest =>
    if it.id = ci.id then
      if (ci.quantity : Int) > it.inventory then none
      else (applyLineItems ci rest).map
        (fun r => { it with inventory := it.inventory - (ci.quantity : Int) } :: r)
    else (applyLineItems ci rest).map (fun r => it :: r)

/-- One cart line applied across all categories (`for cat in menu_data`);
`Option.bind` propagates the early return of the inner loop. -/
def applyLine (ci : CartLine) : Menu → Option Menu
  | [] => some []
  | (cat, items) :: rest =>
    (applyLineItems ci items).bind fun items2 =>
      (applyLine ci rest).bind fun rest2 => some ((cat, items2) :: rest2)

/-- The whole placement inventory pass (`for ci in st.session_state.cart`). -/
def processCart : List CartLine → Menu → Option Menu
  | [], menu => some menu
  | ci :: rest, menu => (applyLine ci menu).bind (processCart rest)

/-! ## Order identifiers (cafe.py line 245)

`f"ORD{len(orders_data)+1:05d}"`: the decimal digits of `len+1`, left
padded with zeros to width 5, after the literal `ORD`. -/

/-- Decimal digits of `n`, least significant first, with explicit fuel so
the definition is structural (fuel `n` always suffices). -/
def digitsAux : Nat → Nat → List Nat
  | 0, _ => []
  | fuel + 1, n => if n = 0 then [] else n % 10 :: digitsAux fuel (n / 10)

/-- Decimal digits of `n`, least significant first (`[]` for 0). -/
def digitsLSF (n : Nat) : List Nat := digitsAux n n

/-- The character of a single decimal digit. -/
def digitChar (d : Nat) : Char := Char.ofNat (48 + d)

/-- The decimal numeral of `n`, most significant digit first. -/
def natChars (n : Nat) : List Char := ((digitsLSF n).reverse).map digitChar

/-- Zero padding to width 5, as `"%05d" % n`. -/
def pad5 (n : Nat) : List Char :=
  List.replicate (5 - (natChars n).length) '0' ++ natChars n

/-- `f"ORD{len+1:05d}"` where `len` is the current order count. -/
def orderId (len : Nat) : String := String.mk ('O' :: 'R' :: 'D' :: pad5 (len + 1))

/-- The counter encoded in an order id: drop `"ORD"`, strip the zero
padding, read the remaining decimal digits most significant first. -/
def charDigit (c : Char) : Nat := c.toNat - 48

/-- Read a digit list, most significant first, as a number. -/
def valMSF (ds : List Nat) : Nat := ds.foldl (fun acc d => 10 * acc + d) 0

/-- Inverse of `orderId`: recover the counter from the id string. -/
def parseId (s : String) : Nat :=
  valMSF (((s.data.drop 3).dropWhile (fun c => c == '0')).map charDigit)

/-! ## Order placement (cafe.py lines 228-289) -/

/-- The Place Order handler.  Inputs are the three text widgets, the
payment selectbox and the clock strings; the cart and the persisted
documents live in `st`.  On a validation or inventory failure the early
return fires before any `save_json`, so the persisted documents and the
session cart are returned unchanged and no order is produced.  On success
the decremented menu is saved, the order (with monetary fields computed
from the settings in effect now) is appended and saved, and the cart is
cleared.  PDF rendering and e-mail delivery (lines 263-285) touch no
persisted document and are omitted. -/
def place_order (st : Store)
    (customer_name table_number payment_status today timeStr ts : String) :
    Store × Option Order :=
  if customer_name = "" then (st, none)
  else if st.cart = [] then (st, none)
  else
    match processCart st.cart st.menu with
    | none => (st, none)
    | some menu2 =>
      let total := (st.cart.map CartLine.subtotal).sum
      let tax_amt := total * st.settings.tax_rate
      let svc_amt := total * st.settings.service_charge
      let final_total := total + tax_amt + svc_amt
      let new_order : Order := {
        id := orderId st.orders.length,
        customer_name := customer_name,
        table_number := table_number,
        items := st.cart,
        subtotal := total,
        discount := 0,
        tax := tax_amt,
        service_charge := svc_amt,
        total := final_total,
        date := today,
        time := timeStr,
        timestamp := ts,
        status := "Pending",
        payment_status := payment_status }
      ({ st with menu := menu2, orders := st.orders ++ [new_order], cart := [] },
        some new_order)

/-! ## Order status update (cafe.py lines 317-326)

The update loop mutates the first order whose id matches, saves the full
order log and immediately reruns the script (`st.rerun()`), so at most the
first match is touched.  The returned list is the persisted log (when no id
matches, nothing is saved and the list is returned unchanged, which
coincides with the stored document). -/

/-- Update the status of the first order whose id is `oid`. -/
def update_status (oid new_status : String) : List Order → List Order
  | [] => []
  | o :: rest =>
    if o.id = oid then { o with status := new_status } :: rest
    else o :: update_status oid new_status rest

/-! ## Supporting lemmas about the inventory pass -/

/-- The effect of one cart line on one menu item when the pass succeeds. -/
def decItem (ci : CartLine) (it : MenuItem) : MenuItem :=
  if it.id = ci.id then { it with inventory := it.inventory - (ci.quantity : Int) } else it

/-- The effect of one cart line on the whole menu when the pass succeeds. -/
def decMenu (ci : CartLine) (m : Menu) : Menu :=
  m.map fun p => (p.1, p.2.map (decItem ci))

/-- Total quantity of the item `i` over the whole cart. -/
def qtyFor (cart : List CartLine) (i : String) : Nat :=
  ((cart.filter fun ci => ci.id == i).map CartLine.quantity).sum

theorem qtyFor_nil (i : String) : qtyFor [] i = 0 := rfl

theorem qtyFor_cons (ci : CartLine) (rest : List CartLine) (i : String) :
    qtyFor (ci :: rest) i = (if ci.id = i then ci.quantity else 0) + qtyFor rest i := by
  by_cases h : ci.id = i
  · simp [qtyFor, List.filter_cons, h]
  · simp [qtyFor, List.filter_cons, h]

theorem decItem_id (ci : CartLine) (it : MenuItem) : (decItem ci it).id = it.id := by
  unfold decItem; split <;> rfl

theorem menuItems_nil : menuItems [] = [] := rfl

theorem menuItems_cons (cat : String) (items : List MenuItem) (rest : Menu) :
    menuItems ((cat, items) :: rest) = items ++ menuItems rest := rfl

theorem menuItems_decMenu (ci : CartLine) (m : Menu) :
    menuItems (decMenu ci m) = (menuItems m).map (decItem ci) := by
  induction m with
  | nil => rfl
  | cons p rest ih =>
    obtain ⟨cat, items⟩ := p
    simp only [decMenu, List.map_cons] at *
    rw [menuItems_cons, menuItems_cons, List.map_append, ih]

theorem applyLineItems_eq_some (ci : CartLine) (items out : List MenuItem)
    (h : applyLineItems ci items = some out) :
    out = items.map (decItem ci) ∧
      ∀ it ∈ items, it.id = ci.id → (ci.quantity : Int) ≤ it.inventory := by
  induction items generalizing out with
  | nil =>
    simp only [applyLineItems, Option.some.injEq] at h
    subst h
    simp
  | cons it rest ih =>
    simp only [applyLineItems] at h
    by_cases hid : it.id = ci.id
    · rw [if_pos hid] at h
      by_cases hq : (ci.quantity : Int) > it.inventory
      · rw [if_pos hq] at h
        exact absurd h (by simp)
      · rw [if_neg hq] at h
        cases hrec : applyLineItems ci rest with
        | none => rw [hrec] at h; simp at h
        | some r =>
          rw [hrec] at h
          simp only [Option.map_some', Option.some.injEq] at h
          rcases ih r hrec with ⟨hr, hb⟩
          subst h
          constructor
          · simp [decItem, hid, hr]
          · intro x hx hxid
            rcases List.mem_cons.mp hx with rfl | hx
            · omega
            · exact hb x hx hxid
    · rw [if_neg hid] at h
      cases hrec : applyLineItems ci rest with
      | none => rw [hrec] at h; simp at h
      | some r =>
        rw [hrec] at h
        simp only [Option.map_some', Option.some.injEq] at h
        rcases ih r hrec with ⟨hr, hb⟩
        subst h
        constructor
        · simp [decItem, hid, hr]
        · intro x hx hxid
          rcases List.mem_cons.mp hx with rfl | hx
          · exact absurd hxid hid
          · exact hb x hx hxid

theorem applyLineItems_eq_some_of (ci : CartLine) (items : List MenuItem)
    (h : ∀ it ∈ items, it.id = ci.id → (ci.quantity : Int) ≤ it.inventory) :
    applyLineItems ci items = some (items.map (decItem ci)) := by
  induction items with
  | nil => rfl
  | cons it rest ih =>
    have hrest : applyLineItems ci rest = some (rest.map (decItem ci)) :=
      ih fun x hx => h x (List.mem_cons_of_mem _ hx)
    simp only [applyLineItems]
    by_cases hid : it.id = ci.id
    · have hq : ¬ ((ci.quantity : Int) > it.inventory) := by
        have := h it (List.mem_cons_self _ _) hid
        omega
      rw [if_pos hid, if_neg hq, hrest]
      simp [decItem, hid]
    · rw [if_neg hid, hrest]
      simp [decItem, hid]

theorem applyLine_eq_some (ci : CartLine) (m out : Menu)
    (h : applyLine ci m = some out) :
    out = decMenu ci m ∧
      ∀ it ∈ menuItems m, it.id = ci.id → (ci.quantity : Int) ≤ it.inventory := by
  induction m generalizing out with
  | nil =>
    simp only [applyLine, Option.some.injEq] at h
    subst h
    simp [decMenu, menuItems_nil]
  | cons p rest ih =>
    obtain ⟨cat, items⟩ := p
    simp only [applyLine] at h
    cases h1 : applyLineItems ci items with
    | none => rw [h1] at h; simp at h
    | some items2 =>
      rw [h1] at h
      cases h2 : applyLine ci rest with
      | none => rw [h2] at h; simp at h
      | some rest2 =>
        rw [h2] at h
        simp only [Option.some_bind, Option.some.injEq] at h
        subst h
        rcases applyLineItems_eq_some ci items items2 h1 with ⟨hi, hbi⟩
        rcases ih rest2 h2 with ⟨hr, hbr⟩
        constructor
        · simp only [decMenu, List.map_cons]
          rw [hi, hr]
          rfl
        · intro it hit hid
          rcases List.mem_append.mp (by simpa [menuItems_cons] using hit) with hx | hx
          · exact hbi it hx hid
          · exact hbr it hx hid

theorem applyLine_eq_some_of (ci : CartLine) (m : Menu)
    (h : ∀ it ∈ menuItems m, it.id = ci.id → (ci.quantity : Int) ≤ it.inventory) :
    applyLine ci m = some (decMenu ci m) := by
  induction m with
  | nil => rfl
  | cons p rest ih =>
    obtain ⟨cat, items⟩ := p
    have h1 : applyLineItems ci items = some (items.map (decItem ci)) :=
      applyLineItems_eq_some_of ci items fun it hit =>
        h it (by simp [menuItems_cons, hit])
    have h2 : applyLine ci rest = some (decMenu ci rest) :=
      ih fun it hit => h it (by simp [menuItems_cons, hit])
    simp only [applyLine, h1, h2, Option.some_bind]
    rfl

theorem processCart_eq_some (cart : List CartLine) (menu out : Menu)
    (h : processCart cart menu = some out) :
    out = cart.foldl (fun m ci => decMenu ci m) menu ∧
      ∀ ci ∈ cart, ∀ it ∈ menuItems menu, it.id = ci.id →
        (ci.quantity : Int) ≤ it.inventory := by
  induction cart generalizing menu out with
  | nil =>
    simp only [processCart, Option.some.injEq] at h
    subst h
    simp
  | cons ci rest ih =>
    simp only [processCart] at h
    cases h1 : applyLine ci menu with
    | none => rw [h1] at h; simp at h
    | some menu2 =>
      rw [h1] at h
      simp only [Option.some_bind] at h
      rcases applyLine_eq_some ci menu menu2 h1 with ⟨hm2, hb1⟩
      rcases ih menu2 out h with ⟨hout, hb2⟩
      constructor
      · rw [List.foldl_cons, ← hm2]
        exact hout
      · intro ci2 hci2 it hit hid
        rcases List.mem_cons.mp hci2 with rfl | hci2
        · exact hb1 it hit hid
        · have hmem : decItem ci it ∈ menuItems menu2 := by
            rw [hm2, menuItems_decMenu]
            exact List.mem_map_of_mem _ hit
          have := hb2 ci2 hci2 (decItem ci it) hmem (by rw [decItem_id]; exact hid)
          unfold decItem at this
          split at this
          · dsimp only at this
            omega
          · omega

theorem processCart_isSome (cart : List CartLine) (menu : Menu)
    (hinv : ∀ it ∈ menuItems menu, 0 ≤ it.inventory) :
    (processCart cart menu).isSome = true ↔
      ∀ it ∈ menuItems menu, (qtyFor cart it.id : Int) ≤ it.inventory := by
  induction cart generalizing menu with
  | nil =>
    apply iff_of_true
    · rfl
    · intro it hit
      rw [qtyFor_nil]
      simpa using hinv it hit
  | cons ci rest ih =>
    by_cases hb : ∀ it ∈ menuItems menu, it.id = ci.id → (ci.quantity : Int) ≤ it.inventory
    · have h1 : applyLine ci menu = some (decMenu ci menu) := applyLine_eq_some_of ci menu hb
      have hinv2 : ∀ it ∈ menuItems (decMenu ci menu), 0 ≤ it.inventory := by
        intro it hit
        rw [menuItems_decMenu] at hit
        rcases List.mem_map.mp hit with ⟨it0, hit0, rfl⟩
        have := hinv it0 hit0
        unfold decItem
        split
        · have := hb it0 hit0 (by assumption)
          simp only
          omega
        · simpa
      have hiff := ih (decMenu ci menu) hinv2
      simp only [processCart, h1, Option.some_bind]
      rw [hiff]
      constructor
      · intro hall it hit
        have := hall (decItem ci it) (by rw [menuItems_decMenu]; exact List.mem_map_of_mem _ hit)
        rw [decItem_id] at this
        rw [qtyFor_cons]
        unfold decItem at this
        by_cases hid : it.id = ci.id
        · rw [if_pos hid] at this
          dsimp only at this
          rw [if_pos hid.symm]
          push_cast at this ⊢
          omega
        · rw [if_neg hid] at this
          rw [if_neg (fun h => hid h.symm)]
          push_cast at this ⊢
          omega
      · intro hall it hit
        rw [menuItems_decMenu] at hit
        rcases List.mem_map.mp hit with ⟨it0, hit0, rfl⟩
        have := hall it0 hit0
        rw [qtyFor_cons] at this
        rw [decItem_id]
        unfold decItem
        by_cases hid : it0.id = ci.id
        · rw [if_pos hid]
          dsimp only
          rw [if_pos hid.symm] at this
          push_cast at this ⊢
          omega
        · rw [if_neg hid]
          rw [if_neg (fun h => hid h.symm)] at this
          push_cast at this ⊢
          omega
    · push_neg at hb
      rcases hb with ⟨it, hit, hid, hover⟩
      apply iff_of_false
      · cases h1 : applyLine ci menu with
        | none => simp [processCart, h1]
        | some m2 =>
          rcases applyLine_eq_some ci menu m2 h1 with ⟨_, hbb⟩
          have := hbb it hit hid
          omega
      · intro hall
        have := hall it hit
        rw [qtyFor_cons, if_pos hid.symm] at this
        have hq : (0 : Int) ≤ (qtyFor rest it.id : Int) := by positivity
        push_cast at this
        omega

theorem menuItems_foldl_decMenu (cart : List CartLine) (menu : Menu) :
    menuItems (cart.foldl (fun m ci => decMenu ci m) menu) =
      (menuItems menu).map
        (fun it => { it with inventory := it.inventory - (qtyFor cart it.id : Int) }) := by
  induction cart generalizing menu with
  | nil =>
    simp only [List.foldl_nil]
    have : (fun it : MenuItem =>
        { it with inventory := it.inventory - (qtyFor [] it.id : Int) }) = id := by
      funext it
      simp [qtyFor_nil]
    rw [this, List.map_id]
  | cons ci rest ih =>
    rw [List.foldl_cons, ih, menuItems_decMenu, List.map_map]
    apply List.map_congr_left
    intro it _
    simp only [Function.comp_apply]
    obtain ⟨iid, inm, ipr, ict, iav, ide, iin⟩ := it
    unfold decItem
    rw [qtyFor_cons]
    by_cases hid : iid = ci.id
    · rw [if_pos hid, if_pos (by simpa using hid.symm)]
      simp only [MenuItem.mk.injEq, true_and]
      push_cast
      ring
    · rw [if_neg hid, if_neg (by simpa using fun h => hid h.symm)]
      simp

/-! ## Concrete fixtures (from the seed data of cafe.py lines 21-64) -/

def espresso : MenuItem :=
  { id := "BEV001", name := "Espresso", price := 5/2, category := "Coffee",
    available := true, description := "Strong black coffee", inventory := 50 }

def latte : MenuItem :=
  { id := "BEV003", name := "Latte", price := 4, category := "Coffee",
    available := true, description := "Coffee with steamed milk", inventory := 40 }

def defaultSettings : Settings :=
  { cafe_name := "My Cafe", barcode_url := "https://mycafe.com/menu",
    tax_rate := 1/10, service_charge := 1/20 }

/-- A store holding one Espresso in the cart (added through the add-to-cart
handler). -/
def espStore1 : Store :=
  { menu := [("beverages", [espresso])], orders := [], settings := defaultSettings,
    tables := [], cart := (add_to_cart espresso 1 []).1 }

/-- A store holding two Espressos in the cart, with a second untouched item
on the menu. -/
def espStore2 : Store :=
  { menu := [("beverages", [espresso, latte])], orders := [], settings := defaultSettings,
    tables := [], cart := (add_to_cart espresso 2 []).1 }

/-- The order the code produces for `espStore2` (subtotal 5.00, tax 0.50,
service 0.25, total 5.75). -/
def espOrder : Order :=
  { id := orderId 0, customer_name := "Bob", table_number := "3",
    items := (add_to_cart espresso 2 []).1, subtotal := 5, discount := 0,
    tax := 1/2, service_charge := 1/4, total := 23/4, date := "d", time := "t",
    timestamp := "ts", status := "Pending", payment_status := "Unpaid" }

/-- The store the code produces for `espStore2`: Espresso inventory down to
48, Latte untouched, the order appended, the cart cleared. -/
def espStore2After : Store :=
  { menu := [("beverages", [{ espresso with inventory := 48 }, latte])],
    orders := [espOrder], settings := defaultSettings, tables := [], cart := [] }

/-- A cart line asking for more Espressos than the inventory holds. -/
def overLine : CartLine :=
  { id := "BEV001", name := "Espresso", price := 5/2, quantity := 60, subtotal := 150 }

def espStoreOver : Store :=
  { menu := [("beverages", [espresso])], orders := [], settings := defaultSettings,
    tables := [], cart := [overLine] }

/-- Two cart lines of 30 Espressos each against inventory 50. -/
def line30 : CartLine :=
  { id := "BEV001", name := "Espresso", price := 5/2, quantity := 30, subtotal := 75 }

def dupCart : List CartLine := [line30, line30]

def dupMenu : Menu := [("beverages", [espresso])]

/-! ## Claims about placement -/

/-- Claim C1: when some cart line's quantity exceeds the current inventory
of its menu item, Place Order leaves the whole store untouched — the
persisted menu document is not altered, no order is appended, and the
session cart is preserved — and produces no order (all-or-nothing
failure). -/
theorem claim_C1 (st : Store) (c t p d tm ts : String) (ci : CartLine) (item : MenuItem)
    (hci : ci ∈ st.cart) (hitem : item ∈ menuItems st.menu)
    (hid : item.id = ci.id) (hover : item.inventory < (ci.quantity : Int)) :
    place_order st c t p d tm ts = (st, none) := by
  have hnone : processCart st.cart st.menu = none := by
    cases h : processCart st.cart st.menu with
    | none => rfl
    | some out =>
      rcases processCart_eq_some st.cart st.menu out h with ⟨_, hb⟩
      have := hb ci hci item hitem hid
      omega
  unfold place_order
  rw [hnone]
  split_ifs <;> rfl

/-- Witness for C1: ordering 60 Espressos against inventory 50 changes
nothing. -/
theorem claim_C1_witness :
    place_order espStoreOver "Alice" "" "Unpaid" "d" "t" "ts" = (espStoreOver, none) :=
  claim_C1 espStoreOver "Alice" "" "Unpaid" "d" "t" "ts" overLine espresso
    (List.mem_cons_self _ _) (List.mem_cons_self _ _) rfl (by decide)

/-- Claim C7: on a successful placement each menu item's inventory drops by
exactly the total quantity of the cart lines referencing its id (so an item
referenced by no line is unchanged), the order is appended, and no other
persisted collection changes. -/
theorem claim_C7 (st : Store) (c t p d tm ts : String) (st2 : Store) (o : Order)
    (h : place_order st c t p d tm ts = (st2, some o)) :
    menuItems st2.menu =
      (menuItems st.menu).map
        (fun it => { it with inventory := it.inventory - (qtyFor st.cart it.id : Int) }) ∧
    st2.orders = st.orders ++ [o] ∧ st2.tables = st.tables ∧ st2.settings = st.settings := by
  unfold place_order at h
  by_cases hc : c = ""
  · rw [if_pos hc] at h; simp at h
  · rw [if_neg hc] at h
    by_cases hcart : st.cart = []
    · rw [if_pos hcart] at h; simp at h
    · rw [if_neg hcart] at h
      cases hp : processCart st.cart st.menu with
      | none => rw [hp] at h; simp at h
      | some menu2 =>
        rw [hp] at h
        simp only [Prod.mk.injEq, Option.some.injEq] at h
        obtain ⟨hst2, ho⟩ := h
        subst hst2
        subst ho
        refine ⟨?_, rfl, rfl, rfl⟩
        show menuItems menu2 = _
        rcases processCart_eq_some st.cart st.menu menu2 hp with ⟨hm, _⟩
        rw [hm, menuItems_foldl_decMenu]

/-- Witness for C7, realizing the spec scenario: 2×Espresso at 2.50 with
tax 10% and service 5% (the `decide` on the hypothesis checks subtotal 5.00,
tax 0.50, service 0.25, total 5.75 and Espresso inventory 48, Latte 40). -/
theorem claim_C7_witness :
    menuItems espStore2After.menu =
      (menuItems espStore2.menu).map
        (fun it => { it with inventory := it.inventory - (qtyFor espStore2.cart it.id : Int) }) ∧
    espStore2After.orders = espStore2.orders ++ [espOrder] ∧
    espStore2After.tables = espStore2.tables ∧
    espStore2After.settings = espStore2.settings :=
  claim_C7 espStore2 "Bob" "3" "Unpaid" "d" "t" "ts" espStore2After espOrder (by
    have h1 : ("Bob" = "") = False := eq_false (by decide)
    have h2 : ("BEV003" = "BEV001") = False := eq_false (by decide)
    norm_num [place_order, espStore2, espStore2After, espOrder, espresso, latte,
      defaultSettings, add_to_cart, round2, processCart, applyLine, applyLineItems,
      Prod.ext_iff, Store.mk.injEq, Order.mk.injEq, MenuItem.mk.injEq,
      List.sum_cons, List.sum_nil, h1, h2])

/-- Claim C9: at add-to-cart time, a quantity above the item's current
inventory is rejected with an error message and the cart is unchanged;
otherwise a line snapshotting the item's id, name and price is appended
with subtotal `round(price * quantity, 2)`. -/
theorem claim_C9 (item : MenuItem) (qty : Nat) (cart : List CartLine) :
    (item.inventory < (qty : Int) →
      add_to_cart item qty cart =
        (cart, some ("Only " ++ toString item.inventory ++ " left of " ++ item.name))) ∧
    ((qty : Int) ≤ item.inventory →
      add_to_cart item qty cart =
        (cart ++ [{ id := item.id, name := item.name, price := item.price,
                    quantity := qty, subtotal := round2 (item.price * (qty : ℚ)) }],
          none)) := by
  constructor
  · intro h
    unfold add_to_cart
    rw [if_pos (by omega)]
  · intro h
    unfold add_to_cart
    rw [if_neg (by omega)]

/-- Witness for C9: 60 Espressos are rejected against inventory 50; 2 are
appended with subtotal `round(2.50 * 2, 2)`. -/
theorem claim_C9_witness :
    add_to_cart espresso 60 [] =
      ([], some ("Only " ++ toString espresso.inventory ++ " left of " ++ espresso.name)) ∧
    add_to_cart espresso 2 [] =
      ([{ id := espresso.id, name := espresso.name, price := espresso.price,
          quantity := 2, subtotal := round2 (espresso.price * (2 : ℚ)) }], none) :=
  ⟨(claim_C9 espresso 60 []).1 (by decide), (claim_C9 espresso 2 []).2 (by decide)⟩

/-- Claim C10: with the inventories non-negative, the line-by-line
placement check (which decrements in-memory inventory as each line passes)
succeeds exactly when, for every menu item, the cumulative quantity over
all cart lines referencing its id stays within that item's initial
inventory. -/
theorem claim_C10 (cart : List CartLine) (menu : Menu)
    (hinv : ∀ it ∈ menuItems menu, 0 ≤ it.inventory) :
    (processCart cart menu).isSome = true ↔
      ∀ it ∈ menuItems menu, (qtyFor cart it.id : Int) ≤ it.inventory :=
  processCart_isSome cart menu hinv

/-- Witness for C10: two lines of 30 Espressos against inventory 50 — the
cumulative 60 exceeds 50, and indeed the pass fails even though each line
alone would fit. -/
theorem claim_C10_witness :
    ((processCart dupCart dupMenu).isSome = true ↔
      ∀ it ∈ menuItems dupMenu, (qtyFor dupCart it.id : Int) ≤ it.inventory) ∧
    processCart dupCart dupMenu = none :=
  ⟨claim_C10 dupCart dupMenu (by decide), by decide⟩

/-! ## The user operations over the store -/

/-- One user interaction that can touch the persisted documents or the
session cart, mirroring the request handlers of the source: add-to-cart
(lines 202-212), Place Order (lines 228-289), the status update of Order
History (lines 317-326), the reconcile pass of Table Management (lines
147-156) and Logout (lines 341-344). -/
inductive Op where
  | addCart (itemId : String) (qty : Nat)
  | place (customer_name table_number payment_status today timeStr ts : String)
  | setStatus (oid new_status : String)
  | reconcile
  /-- Modelled from the spec: `settings_page` is referenced but absent from
  the source file; per the spec it rewrites only the settings document. -/
  | setSettings (s : Settings)
  /-- Modelled from the spec: `menu_management_page` is referenced but
  absent from the source file; per the spec it rewrites only the menu
  document. -/
  | setMenu (m : Menu)
  | logout

/-- One step of the system: apply one interaction to the store.  Add-to-
cart looks the pressed item up among the available menu items (line 194)
and requires a positive quantity (line 202). -/
def step (st : Store) : Op → Store
  | .addCart itemId qty =>
    if qty = 0 then st
    else
      match ((menuItems st.menu).filter fun it => it.available).find?
          (fun it => it.id == itemId) with
      | none => st
      | some it => { st with cart := (add_to_cart it qty st.cart).1 }
  | .place c t p d tm ts => (place_order st c t p d tm ts).1
  | .setStatus oid ns => { st with orders := update_status oid ns st.orders }
  | .reconcile => { st with tables := reconcileTables st.orders st.tables }
  | .setSettings s => { st with settings := s }
  | .setMenu m => { st with menu := m }
  | .logout => { st with cart := [] }

/-- The documents seeded on first run (cafe.py lines 19-71) and an empty
session cart. -/
def initStore : Store :=
  { menu :=
      [("beverages",
        [espresso,
         { id := "BEV002", name := "Cappuccino", price := 7/2, category := "Coffee",
           available := true, description := "Coffee with steamed milk foam", inventory := 40 },
         latte,
         { id := "BEV004", name := "Green Tea", price := 2, category := "Tea",
           available := true, description := "Fresh green tea", inventory := 30 },
         { id := "BEV005", name := "Fresh Orange Juice", price := 3, category := "Juice",
           available := true, description := "Freshly squeezed orange juice", inventory := 25 }]),
       ("food",
        [{ id := "FOOD001", name := "Croissant", price := 5/2, category := "Pastry",
           available := true, description := "Buttery French pastry", inventory := 40 },
         { id := "FOOD002", name := "Chocolate Muffin", price := 3, category := "Pastry",
           available := true, description := "Rich chocolate muffin", inventory := 35 },
         { id := "FOOD003", name := "Caesar Salad", price := 17/2, category := "Salad",
           available := true, description := "Fresh romaine with caesar dressing", inventory := 20 },
         { id := "FOOD004", name := "Club Sandwich", price := 9, category := "Sandwich",
           available := true, description := "Triple layer sandwich with turkey and bacon", inventory := 30 },
         { id := "FOOD005", name := "Margherita Pizza", price := 12, category := "Pizza",
           available := true, description := "Classic pizza with tomato and mozzarella", inventory := 15 }])],
    orders := [], settings := defaultSettings,
    tables := (List.range 10).map fun i =>
      { table_number := toString (i + 1), status := "Available" },
    cart := [] }

/-- A whole session: fold the interactions over the seeded store. -/
def runOps (ops : List Op) : Store := ops.foldl step initStore

/-! ## Claim C3: the total formula -/

/-- The claim C3 asserts `total == round(subtotal + subtotal*tax_rate +
subtotal*service_charge, 2)`; the code never rounds the stored total
(cafe.py lines 221 and 253).  With one 2.50 Espresso, tax 10% and service
5%, the stored total is 2.875 while the claimed rounded value is 2.88. -/
theorem claim_C3_counterexample :
    (place_order espStore1 "Alice" "" "Unpaid" "d" "t" "ts").2.map Order.total ≠
      (place_order espStore1 "Alice" "" "Unpaid" "d" "t" "ts").2.map (fun o =>
        round2 (o.subtotal + o.subtotal * espStore1.settings.tax_rate +
          o.subtotal * espStore1.settings.service_charge)) := by
  have h1 : ("Alice" = "") = False := eq_false (by decide)
  have hf : Int.fract ((575 : ℚ)/2) = 1/2 := by
    rw [Int.fract]
    norm_num
  norm_num [place_order, espStore1, espresso, defaultSettings, add_to_cart, round2,
    processCart, applyLine, applyLineItems, List.sum_cons, List.sum_nil, h1, hf]

/-- Claim C3 (amended): the stored monetary fields come from the settings
in effect at placement time with no rounding of tax, service or total —
`total = subtotal + subtotal*tax_rate + subtotal*service_charge` exactly —
and they are frozen into the order record: a later settings change leaves
the stored order log untouched. -/
theorem claim_C3_amended (st : Store) (c t p d tm ts : String) (o : Order)
    (h : (place_order st c t p d tm ts).2 = some o) :
    o.subtotal = (st.cart.map CartLine.subtotal).sum ∧
    o.tax = o.subtotal * st.settings.tax_rate ∧
    o.service_charge = o.subtotal * st.settings.service_charge ∧
    o.total = o.subtotal + o.subtotal * st.settings.tax_rate +
      o.subtotal * st.settings.service_charge ∧
    ∀ s2 : Settings,
      (step (place_order st c t p d tm ts).1 (Op.setSettings s2)).orders =
        (place_order st c t p d tm ts).1.orders := by
  refine ?_
  unfold place_order at h
  by_cases hc : c = ""
  · rw [if_pos hc] at h; simp at h
  · rw [if_neg hc] at h
    by_cases hcart : st.cart = []
    · rw [if_pos hcart] at h; simp at h
    · rw [if_neg hcart] at h
      cases hp : processCart st.cart st.menu with
      | none => rw [hp] at h; simp at h
      | some menu2 =>
        rw [hp] at h
        simp only [Option.some.injEq] at h
        subst h
        exact ⟨rfl, rfl, rfl, rfl, fun s2 => rfl⟩

/-- The order the code produces for `espStore1` (stored total 2.875,
unrounded). -/
def espOrder1 : Order :=
  { id := orderId 0, customer_name := "Alice", table_number := "",
    items := (add_to_cart espresso 1 []).1, subtotal := 5/2, discount := 0,
    tax := 1/4, service_charge := 1/8, total := 23/8, date := "d", time := "t",
    timestamp := "ts", status := "Pending", payment_status := "Unpaid" }

def altSettings : Settings := { defaultSettings with tax_rate := 1/5 }

/-- Witness for the amended C3 at a concrete placement, with the frozen
part instantiated at a later tax-rate change. -/
theorem claim_C3_amended_witness :
    espOrder1.subtotal = (espStore1.cart.map CartLine.subtotal).sum ∧
    espOrder1.tax = espOrder1.subtotal * espStore1.settings.tax_rate ∧
    espOrder1.service_charge = espOrder1.subtotal * espStore1.settings.service_charge ∧
    espOrder1.total = espOrder1.subtotal + espOrder1.subtotal * espStore1.settings.tax_rate +
      espOrder1.subtotal * espStore1.settings.service_charge ∧
    (step (place_order espStore1 "Alice" "" "Unpaid" "d" "t" "ts").1
        (Op.setSettings altSettings)).orders =
      (place_order espStore1 "Alice" "" "Unpaid" "d" "t" "ts").1.orders := by
  have h : (place_order espStore1 "Alice" "" "Unpaid" "d" "t" "ts").2 = some espOrder1 := by
    have h1 : ("Alice" = "") = False := eq_false (by decide)
    norm_num [place_order, espStore1, espOrder1, espresso, defaultSettings, add_to_cart,
      round2, processCart, applyLine, applyLineItems, Order.mk.injEq,
      List.sum_cons, List.sum_nil, h1]
  have hmain := claim_C3_amended espStore1 "Alice" "" "Unpaid" "d" "t" "ts" espOrder1 h
  exact ⟨hmain.1, hmain.2.1, hmain.2.2.1, hmain.2.2.2.1, hmain.2.2.2.2 altSettings⟩

/-! ## Claim C8: the status update frame -/

theorem update_status_map_id (oid ns : String) (orders : List Order) :
    (update_status oid ns orders).map Order.id = orders.map Order.id := by
  induction orders with
  | nil => rfl
  | cons o rest ih =>
    unfold update_status
    split
    · simp
    · simp [ih]

theorem update_status_eq_map (oid ns : String) (orders : List Order)
    (h : (orders.map Order.id).Nodup) :
    update_status oid ns orders =
      orders.map fun o => if o.id = oid then { o with status := ns } else o := by
  induction orders with
  | nil => rfl
  | cons o rest ih =>
    simp only [List.map_cons, List.nodup_cons] at h
    obtain ⟨hno, hrest⟩ := h
    unfold update_status
    by_cases hid : o.id = oid
    · rw [if_pos hid, List.map_cons, if_pos hid]
      congr 1
      have hall : ∀ x ∈ rest,
          (fun o : Order => if o.id = oid then { o with status := ns } else o) x = id x := by
        intro x hx
        have hxid : ¬ x.id = oid := by
          intro hxx
          exact hno (hid ▸ hxx ▸ List.mem_map_of_mem Order.id hx)
        simp [hxid]
      rw [List.map_congr_left hall, List.map_id]
    · rw [if_neg hid, List.map_cons, if_neg hid]
      congr 1
      exact ih hrest

theorem forall₂_map_self {α β : Type} (f : α → β) (P : α → β → Prop) (l : List α)
    (h : ∀ x, P x (f x)) : List.Forall₂ P l (l.map f) := by
  induction l with
  | nil => exact List.Forall₂.nil
  | cons a u ih => exact List.Forall₂.cons (h a) ih

/-- Claim C8: under unique order ids (the store invariant), a status update
rewrites the matched order's status and nothing else: the persisted log is
the old log with only that order's status field replaced — every other
field of the matched order and every other order are unchanged. -/
theorem claim_C8 (orders : List Order) (oid ns : String)
    (h : (orders.map Order.id).Nodup) :
    update_status oid ns orders =
      (orders.map fun o => if o.id = oid then { o with status := ns } else o) ∧
    List.Forall₂ (fun o o2 : Order =>
      o2.id = o.id ∧ o2.customer_name = o.customer_name ∧
      o2.table_number = o.table_number ∧ o2.items = o.items ∧
      o2.subtotal = o.subtotal ∧ o2.discount = o.discount ∧ o2.tax = o.tax ∧
      o2.service_charge = o.service_charge ∧ o2.total = o.total ∧
      o2.date = o.date ∧ o2.time = o.time ∧ o2.timestamp = o.timestamp ∧
      o2.payment_status = o.payment_status ∧
      (o.id ≠ oid → o2 = o) ∧ (o.id = oid → o2.status = ns))
      orders (update_status oid ns orders) := by
  have hmap := update_status_eq_map oid ns orders h
  refine ⟨hmap, ?_⟩
  rw [hmap]
  apply forall₂_map_self
  intro x
  by_cases hid : x.id = oid
  · rw [if_pos hid]
    exact ⟨rfl, rfl, rfl, rfl, rfl, rfl, rfl, rfl, rfl, rfl, rfl, rfl, rfl,
      fun hne => absurd hid hne, fun _ => rfl⟩
  · rw [if_neg hid]
    exact ⟨rfl, rfl, rfl, rfl, rfl, rfl, rfl, rfl, rfl, rfl, rfl, rfl, rfl,
      fun _ => rfl, fun he => absurd he hid⟩

def ordA : Order :=
  { id := orderId 0, customer_name := "A", table_number := "1", items := [],
    subtotal := 0, discount := 0, tax := 0, service_charge := 0, total := 0,
    date := "d", time := "t", timestamp := "t1", status := "Pending",
    payment_status := "Unpaid" }

def ordB : Order :=
  { ordA with id := orderId 1, customer_name := "B", timestamp := "t2" }

/-- Witness for C8 at a two-order log. -/
theorem claim_C8_witness :
    update_status ordA.id "Ready" [ordA, ordB] =
      ([ordA, ordB].map fun o => if o.id = ordA.id then { o with status := "Ready" } else o) ∧
    List.Forall₂ (fun o o2 : Order =>
      o2.id = o.id ∧ o2.customer_name = o.customer_name ∧
      o2.table_number = o.table_number ∧ o2.items = o.items ∧
      o2.subtotal = o.subtotal ∧ o2.discount = o.discount ∧ o2.tax = o.tax ∧
      o2.service_charge = o.service_charge ∧ o2.total = o.total ∧
      o2.date = o.date ∧ o2.time = o.time ∧ o2.timestamp = o.timestamp ∧
      o2.payment_status = o.payment_status ∧
      (o.id ≠ ordA.id → o2 = o) ∧ (o.id = ordA.id → o2.status = "Ready"))
      [ordA, ordB] (update_status ordA.id "Ready" [ordA, ordB]) :=
  claim_C8 [ordA, ordB] ordA.id "Ready" (by decide)

/-! ## Claim C5: order identifiers

`parseId` recovers the counter from a formatted id; `parseId (orderId len)
= len + 1` makes the formatting injective on the ids a store can hold. -/

theorem digitsAux_eq (fuel : Nat) :
    ∀ n : Nat, n ≤ fuel → digitsAux fuel n = Nat.digits 10 n := by
  induction fuel with
  | zero =>
    intro n hn
    interval_cases n
    simp [digitsAux]
  | succ fuel ih =>
    intro n hn
    unfold digitsAux
    by_cases hn0 : n = 0
    · rw [if_pos hn0, hn0]
      simp
    · rw [if_neg hn0, ih (n / 10) (by omega),
        Nat.digits_def' (by norm_num : (1:Nat) < 10) (Nat.pos_of_ne_zero hn0)]

theorem digitsLSF_eq (n : Nat) : digitsLSF n = Nat.digits 10 n :=
  digitsAux_eq n n le_rfl

theorem valMSF_append (l : List Nat) (d : Nat) :
    valMSF (l ++ [d]) = 10 * valMSF l + d := by
  unfold valMSF
  rw [List.foldl_append]
  rfl

theorem valMSF_reverse (l : List Nat) : valMSF l.reverse = Nat.ofDigits 10 l := by
  induction l with
  | nil => rfl
  | cons d ds ih =>
    rw [List.reverse_cons, valMSF_append, ih, Nat.ofDigits_cons]
    omega

theorem charDigit_digitChar (d : Nat) (h : d < 10) : charDigit (digitChar d) = d := by
  interval_cases d <;> decide

theorem digitChar_ne_zeroChar (d : Nat) (h : d < 10) (h0 : d ≠ 0) :
    (digitChar d == '0') = false := by
  interval_cases d
  · exact absurd rfl h0
  all_goals decide

theorem natChars_map_charDigit (n : Nat) :
    (natChars n).map charDigit = (Nat.digits 10 n).reverse := by
  unfold natChars
  rw [digitsLSF_eq, List.map_map]
  have hall : ∀ d ∈ (Nat.digits 10 n).reverse, (charDigit ∘ digitChar) d = id d := by
    intro d hd
    exact charDigit_digitChar d (Nat.digits_lt_base (by norm_num) (List.mem_reverse.mp hd))
  rw [List.map_congr_left hall, List.map_id]

theorem natChars_head (n : Nat) (hn : n ≠ 0) :
    ∃ d rest, natChars n = digitChar d :: rest ∧ d < 10 ∧ d ≠ 0 := by
  unfold natChars
  rw [digitsLSF_eq]
  have hne : Nat.digits 10 n ≠ [] := Nat.digits_ne_nil_iff_ne_zero.mpr hn
  obtain ⟨d, ds, hd⟩ : ∃ d ds, (Nat.digits 10 n).reverse = d :: ds := by
    cases hrev : (Nat.digits 10 n).reverse with
    | nil =>
      exact absurd (by simpa using congrArg List.reverse hrev) hne
    | cons d ds => exact ⟨d, ds, rfl⟩
  refine ⟨d, ds.map digitChar, by rw [hd]; rfl, ?_, ?_⟩
  · exact Nat.digits_lt_base (by norm_num)
      (List.mem_reverse.mp (hd ▸ List.mem_cons_self d ds))
  · have h1 : (Nat.digits 10 n).getLast? = some d := by
      rw [← List.head?_reverse, hd]
      rfl
    have h2 : (Nat.digits 10 n).getLast? = some ((Nat.digits 10 n).getLast hne) :=
      List.getLast?_eq_getLast _ hne
    have h3 := Nat.getLast_digit_ne_zero 10 hn
    rw [h1] at h2
    simp only [Option.some.injEq] at h2
    rw [h2]
    exact h3

theorem dropWhile_replicate_append (p : Char → Bool) (k : Nat) (a : Char)
    (l : List Char) (hp : p a = true) :
    (List.replicate k a ++ l).dropWhile p = l.dropWhile p := by
  induction k with
  | zero => rfl
  | succ k ih =>
    rw [List.replicate_succ, List.cons_append, List.dropWhile_cons]
    simp only [hp, if_true]
    exact ih

theorem parseId_orderId (len : Nat) : parseId (orderId len) = len + 1 := by
  have hn : len + 1 ≠ 0 := Nat.succ_ne_zero len
  obtain ⟨d, rest, hnc, hd10, hd0⟩ := natChars_head (len + 1) hn
  unfold parseId orderId
  have hdata : (String.mk ('O' :: 'R' :: 'D' :: pad5 (len + 1))).data =
      'O' :: 'R' :: 'D' :: pad5 (len + 1) := rfl
  rw [hdata]
  have hdrop3 : ('O' :: 'R' :: 'D' :: pad5 (len + 1)).drop 3 = pad5 (len + 1) := rfl
  rw [hdrop3]
  unfold pad5
  rw [dropWhile_replicate_append _ _ _ _ rfl, hnc, List.dropWhile_cons]
  simp only [digitChar_ne_zeroChar d hd10 hd0, Bool.false_eq_true, if_false]
  rw [← hnc, natChars_map_charDigit, valMSF_reverse, Nat.ofDigits_digits]

/-- The id invariant: the k-th order of the log carries the id formatted
from the order count at its creation. -/
def IdInv (st : Store) : Prop :=
  st.orders.map Order.id = (List.range st.orders.length).map orderId

theorem place_order_orders (st : Store) (c t p d tm ts : String) :
    (place_order st c t p d tm ts).1.orders = st.orders ∨
    ∃ o : Order, o.id = orderId st.orders.length ∧
      (place_order st c t p d tm ts).1.orders = st.orders ++ [o] := by
  unfold place_order
  split
  · left; rfl
  · split
    · left; rfl
    · split
      · left; rfl
      · right; exact ⟨_, rfl, rfl⟩

theorem step_IdInv (st : Store) (op : Op) (h : IdInv st) : IdInv (step st op) := by
  cases op with
  | addCart itemId qty =>
    simp only [step]
    split
    · exact h
    · split
      · exact h
      · exact h
  | place c t p d tm ts =>
    unfold IdInv at h ⊢
    rcases place_order_orders st c t p d tm ts with heq | ⟨o, hid, heq⟩
    · simp only [step]
      rw [heq]
      exact h
    · simp only [step]
      rw [heq, List.map_append, h]
      simp [List.range_succ, hid]
  | setStatus oid ns =>
    unfold IdInv at h ⊢
    have hmap := update_status_map_id oid ns st.orders
    have hlen : (update_status oid ns st.orders).length = st.orders.length := by
      have := congrArg List.length hmap
      simpa using this
    show (update_status oid ns st.orders).map Order.id =
      (List.range (update_status oid ns st.orders).length).map orderId
    rw [hmap, hlen, h]
  | reconcile => exact h
  | setSettings s => exact h
  | setMenu m => exact h
  | logout => exact h

theorem foldl_IdInv (ops : List Op) (st : Store) (h : IdInv st) :
    IdInv (ops.foldl step st) := by
  induction ops generalizing st with
  | nil => exact h
  | cons op rest ih => exact ih (step st op) (step_IdInv st op h)

theorem runOps_IdInv (ops : List Op) : IdInv (runOps ops) :=
  foldl_IdInv ops initStore rfl

/-- Claim C5: across any session from the seeded store, the order log's
identifiers are exactly the zero-padded formattings of 1..n (each created
from `len(orders)+1`), hence pairwise distinct and strictly increasing in
the encoded counter; and every further interaction only extends the log
(its id sequence stays a prefix), never deleting an order. -/
theorem claim_C5 (ops : List Op) :
    (runOps ops).orders.map Order.id =
      (List.range (runOps ops).orders.length).map orderId ∧
    ((runOps ops).orders.map Order.id).Nodup ∧
    List.Chain' (fun a b => parseId a < parseId b) ((runOps ops).orders.map Order.id) ∧
    ∀ op : Op, (runOps ops).orders.map Order.id <+:
      (step (runOps ops) op).orders.map Order.id := by
  have hinv : IdInv (runOps ops) := runOps_IdInv ops
  have hparse : ((runOps ops).orders.map Order.id).map parseId =
      (List.range (runOps ops).orders.length).map (fun k => k + 1) := by
    rw [hinv, List.map_map]
    exact List.map_congr_left fun k _ => parseId_orderId k
  refine ⟨hinv, ?_, ?_, ?_⟩
  · apply List.Nodup.of_map parseId
    rw [hparse]
    exact (List.nodup_range _).map (fun a b hab => by omega)
  · rw [← List.chain'_map parseId, hparse]
    apply List.Pairwise.chain'
    exact (List.pairwise_lt_range _).map _ (fun a b hab => by omega)
  · intro op
    cases op with
    | addCart itemId qty =>
      simp only [step]
      split
      · exact List.prefix_refl _
      · split
        · exact List.prefix_refl _
        · exact List.prefix_refl _
    | place c t p d tm ts =>
      rcases place_order_orders (runOps ops) c t p d tm ts with heq | ⟨o, _, heq⟩
      · simp only [step]
        rw [heq]
      · simp only [step]
        rw [heq, List.map_append]
        exact List.prefix_append _ _
    | setStatus oid ns =>
      show _ <+: (update_status oid ns (runOps ops).orders).map Order.id
      rw [update_status_map_id]
    | reconcile => exact List.prefix_refl _
    | setSettings s => exact List.prefix_refl _
    | setMenu m => exact List.prefix_refl _
    | logout => exact List.prefix_refl _

end Cafe
